import Mathlib

/-!
Shallow embedding of the `derive_constructors` procedural-macro crate
(files `derive_constructors_proc/src/utils.rs`,
`derive_constructors_proc/src/parsing_structs.rs`,
`derive_constructors_proc/src/lib.rs`).

Token streams are modelled as lists of token trees whose group contents are
kept as opaque strings (the source hands groups around as unparsed
`TokenStream`s).  Functions of the source that can panic (`unwrap`,
`expect_else`) are modelled as `Option`-returning functions where `none`
marks the panic.
-/

namespace DeriveConstructors

/-- A single token tree, mirroring `proc_macro::TokenTree`: an identifier,
a parenthesized group (its inner stream kept opaque, rendered as a string),
a punctuation token, or a literal. -/
inductive TokenTree where
  | ident (s : String)
  | group (inner : String)
  | punct (c : Char)
  | literal (s : String)
deriving DecidableEq, Repr

/-- The 3-state cycle of `idents_and_groups_from` (enum `ParsePhase` in
`utils.rs`). -/
inductive ParsePhase where
  | identPhase
  | groupPhase
  | punctPhase
deriving DecidableEq, Repr

/-- Embeds `ParsePhase::advance_to_next` from `utils.rs`. -/
def ParsePhase.advance_to_next : ParsePhase → ParsePhase
  | .identPhase => .groupPhase
  | .groupPhase => .punctPhase
  | .punctPhase => .identPhase

/-- The four `syn::Error::new(span, format!(...))` sites of
`idents_and_groups_from`, kept structurally: each constructor records which
expectation failed and which identifier the format string interpolates.
`expectedName`'s message interpolates `idents.last()` only when present;
`expectedGroupAtEnd` (the length-mismatch error after the loop) uses the
last identifier only as the span and interpolates nothing into the text. -/
inductive ParseError where
  | expectedName (prevIdent : Option String)
  | expectedGroup (prevIdent : String)
  | expectedSeparator (prevIdent : String)
  | expectedGroupAtEnd (spanIdent : String)
deriving DecidableEq, Repr

/-- The apostrophe character, used by the error format strings. -/
def quoteChar : String := String.singleton (Char.ofNat 39)

/-- Renders the exact message text of each `syn::Error` of
`idents_and_groups_from` (`utils.rs` lines 111-139), with `{}` holes
filled in as the source's `format!` calls do. -/
def ParseError.message : ParseError → String
  | .expectedName prevIdent =>
      "Expected a name" ++
        (match prevIdent with
          | some i => " after group named " ++ quoteChar ++ i ++ quoteChar
          | none => "") ++
        ", for example, " ++ quoteChar ++ "group_name" ++ quoteChar ++
        " in " ++ quoteChar ++ "group_name(my group" ++ quoteChar ++
        "s description)" ++ quoteChar
  | .expectedGroup prevIdent =>
      "Expected a group after group named " ++ quoteChar ++ prevIdent ++
        quoteChar ++ ", for example, " ++ quoteChar ++
        "(my group" ++ quoteChar ++ "s description)" ++ quoteChar ++
        " in " ++ quoteChar ++ "group_name(my group" ++ quoteChar ++
        "s description)" ++ quoteChar
  | .expectedSeparator prevIdent =>
      "Expected a separator after group named " ++ quoteChar ++ prevIdent ++
        quoteChar ++ ", for example, the comma (" ++ quoteChar ++ "," ++
        quoteChar ++ ") in " ++ quoteChar ++ "group1(desc), group2(desc)" ++
        quoteChar
  | .expectedGroupAtEnd _ =>
      "Expected a group, for example, " ++ quoteChar ++
        "(my group" ++ quoteChar ++ "s description)" ++ quoteChar ++
        " in " ++ quoteChar ++ "group_name(my group" ++ quoteChar ++
        "s description)" ++ quoteChar

/-- The identifier a `ParseError`'s message text interpolates, if any
(read off the `format!` strings in `utils.rs`: the end-of-stream
length-mismatch message is a constant naming no identifier). -/
def ParseError.mentionedIdent : ParseError → Option String
  | .expectedName prevIdent => prevIdent
  | .expectedGroup prevIdent => some prevIdent
  | .expectedSeparator prevIdent => some prevIdent
  | .expectedGroupAtEnd _ => none

/-- The `for token in token_stream` loop of `idents_and_groups_from`:
state is the current `ParsePhase` plus the `idents` and `groups` vectors
(pushed at the back, as `Vec::push` does); `advance_to_next` runs after
every accepted token.  `idents.last().unwrap()` in the group/separator
arms is modelled with `getLast?.getD ""`; those states are only reachable
with `idents` non-empty, so the default is never used. -/
def idents_and_groups_loop :
    ParsePhase → List String → List String → List TokenTree →
    Except ParseError (List String × List String)
  | _, idents, groups, [] => .ok (idents, groups)
  | .identPhase, idents, groups, t :: rest =>
      match t with
      | .ident s => idents_and_groups_loop .groupPhase (idents ++ [s]) groups rest
      | _ => .error (.expectedName idents.getLast?)
  | .groupPhase, idents, groups, t :: rest =>
      match t with
      | .group g => idents_and_groups_loop .punctPhase idents (groups ++ [g]) rest
      | _ => .error (.expectedGroup (idents.getLast?.getD ""))
  | .punctPhase, idents, groups, t :: rest =>
      match t with
      | .punct _ => idents_and_groups_loop .identPhase idents groups rest
      | _ => .error (.expectedSeparator (idents.getLast?.getD ""))

/-- Embeds `idents_and_groups_from` (`utils.rs` lines 101-145): run the 3-phase
loop, then fail if the identifier and group counts differ (trailing
identifier with no group), else zip the two vectors into ordered pairs. -/
def idents_and_groups_from (ts : List TokenTree) :
    Except ParseError (List (String × String)) :=
  match idents_and_groups_loop .identPhase [] [] ts with
  | .error e => .error e
  | .ok (idents, groups) =>
      if idents.length ≠ groups.length then
        .error (.expectedGroupAtEnd (idents.getLast?.getD ""))
      else
        .ok (idents.zip groups)

/-- A canonical well-formed stream `n1(g1) sep n2(g2) sep ...` built from
ordered pairs, with an arbitrary punctuation character as separator. -/
def pairsToStream (sep : Char) : List (String × String) → List TokenTree
  | [] => []
  | [(n, g)] => [.ident n, .group g]
  | (n, g) :: rest => .ident n :: .group g :: .punct sep :: pairsToStream sep rest

/-- A declared struct field as the macro sees it: identifier, declared type
(kept as opaque token text), and the optional `#[no_from]` marker
(`none` = marker absent; `some none` = `#[no_from]` with no argument;
`some (some ts)` = `#[no_from(ts)]`, `ts` being the raw argument tokens as
`extract_token_stream_of_attribute` hands them back). -/
structure DField where
  ident : String
  ty : String
  no_from : Option (Option String)
deriving DecidableEq, Repr

/-- The canonical default-construction token stream the source splices for
unspecified passive fields: `quote!(core::default::Default::default())`. -/
def default_initializer : String := "core::default::Default::default()"

/-- Embeds `FieldsInfo` from `parsing_structs.rs`: parallel lists of active-field
names and types, and parallel lists of passive-field names and initializer
token streams. -/
structure FieldsInfo where
  fields_names : List String
  fields_types : List String
  no_from_fields : List String
  no_from_fields_initializers : List String
deriving DecidableEq, Repr

/-- Embeds `FieldsInfo::new_from_derive_data_struct` (`parsing_structs.rs` lines
18-39): fields without a `#[no_from]` marker are active in declaration
order; fields with the marker are passive, initialized by the marker's
argument tokens when present, else by the canonical default expression. -/
def FieldsInfo.new_from_derive_data_struct (fields : List DField) :
    FieldsInfo where
  fields_names := (fields.filter (fun f => f.no_from.isNone)).map (fun f => f.ident)
  fields_types := (fields.filter (fun f => f.no_from.isNone)).map (fun f => f.ty)
  no_from_fields := (fields.filter (fun f => f.no_from.isSome)).map (fun f => f.ident)
  no_from_fields_initializers :=
    (fields.filter (fun f => f.no_from.isSome)).map
      (fun f => match f.no_from with
        | some (some ts) => ts
        | _ => default_initializer)

/-- The two entries of the parsed attribute map that
`FieldsInfo::new_from_macro_attribute_info` removes: the raw token stream
of the `defaults(...)` entry, if present, and the `fields(...)` entry
already split on commas, trimmed, and parsed into identifiers (the source
does this with `to_string().split(",")` and `parse_str::<Ident>`). -/
structure AttrFieldsConfig where
  defaults : Option (List TokenTree)
  fields : Option (List String)

/-- The `defaults` step of `FieldsInfo::new_from_macro_attribute_info`
(`parsing_structs.rs` lines 45-51): when a `defaults(...)` entry is
present, re-parse its stream with `idents_and_groups_from` — a parse
failure is an `expect_else` panic, modelled as `none`; when absent, the
pair lists default to empty. -/
def parsed_defaults (attr : AttrFieldsConfig) :
    Option (List (String × String)) :=
  match attr.defaults with
  | some toks =>
    match idents_and_groups_from toks with
    | .ok pairs => some pairs
    | .error _ => none
  | none => some []

/-- Embeds `FieldsInfo::new_from_macro_attribute_info` (`parsing_structs.rs`
lines 41-86), with `none` modelling the panics: the `defaults` entry is
re-parsed by `idents_and_groups_from` (its failure is an `expect_else`
panic); active-field types are resolved by
`data.fields.iter().filter(..).next().unwrap()`, a panic when an active
identifier is not declared.  Fields named by `defaults` are taken as
passive with their group as initializer — without any check that they are
declared on the type.  Remaining declared fields claimed by neither list
become passive with the canonical default expression.  The `defaults`
step (lines 45-51) is split out as `parsed_defaults` above: a
`defaults(...)` entry is re-parsed by `idents_and_groups_from`, its
failure being an `expect_else` panic; an absent entry defaults to empty
pair lists. -/
def FieldsInfo.new_from_macro_attribute_info (data : List DField)
    (attr : AttrFieldsConfig) : Option FieldsInfo := do
  let defaultPairs ← parsed_defaults attr
  let no_from_fields := defaultPairs.map Prod.fst
  let no_from_initializers := defaultPairs.map Prod.snd
  let fields_in_use := attr.fields.getD
    ((data.filter (fun f => !(no_from_fields.contains f.ident))).map
      (fun f => f.ident))
  let fields_in_use_types ← fields_in_use.mapM
    (fun c => (data.find? (fun f => f.ident == c)).map (fun f => f.ty))
  let unreached_fields := (data.map (fun f => f.ident)).filter
    (fun n => !(fields_in_use.contains n) && !(no_from_fields.contains n))
  some {
    fields_names := fields_in_use
    fields_types := fields_in_use_types
    no_from_fields := no_from_fields ++ unreached_fields
    no_from_fields_initializers :=
      no_from_initializers ++ unreached_fields.map (fun _ => default_initializer)
  }

/-- One word of an identifier capitalized, as `convert_case`'s Pascal case
does: first character uppercased, the rest lowercased. -/
def capitalizeWord : List Char → List Char
  | [] => []
  | c :: rest => c.toUpper :: rest.map Char.toLower

/-- Word delimiters of `convert_case`'s default boundaries. -/
def isDelim (c : Char) : Bool := c = '_' || c = '-' || c = ' '

/-- Splits an identifier into words at `convert_case`'s default
boundaries: delimiter characters (dropped), a lowercase-to-uppercase
transition, and the acronym boundary (uppercase followed by uppercase
then lowercase).  `acc` is the current word, reversed. -/
def splitWordsAux : List Char → List Char → List (List Char)
  | acc, [] => if acc.isEmpty then [] else [acc.reverse]
  | acc, c :: rest =>
    if isDelim c then
      (if acc.isEmpty then [] else [acc.reverse]) ++ splitWordsAux [] rest
    else
      match acc with
      | [] => splitWordsAux [c] rest
      | p :: _ =>
        if p.isLower && c.isUpper then
          acc.reverse :: splitWordsAux [c] rest
        else if p.isUpper && c.isUpper &&
            ((rest.head?.map Char.isLower).getD false) then
          acc.reverse :: splitWordsAux [c] rest
        else
          splitWordsAux (c :: acc) rest

/-- Models `convert_case`'s `to_case(Case::Pascal)`: split into words, capitalize
each, concatenate. -/
def to_case_pascal (s : String) : String :=
  String.join ((splitWordsAux [] s.data).map (fun w => String.mk (capitalizeWord w)))

/-- Embeds `TryFromInfo` from `parsing_structs.rs`: the generated error enum's
metadata tokens and name, and the per-active-field error-variant and
placeholder-type identifiers (parallel to `fields_names`). -/
structure TryFromInfo where
  error_enum_metadata : String
  error_enum_name : String
  error_types : List String
  try_from_types : List String
deriving DecidableEq, Repr

/-- Embeds `TryFromInfo::error_types_and_try_from_types` (`parsing_structs.rs`
lines 97-112): per active field, `format!("{}Error", pascal(field))` and
`format!("{}From", pascal(field))`. -/
def TryFromInfo.error_types_and_try_from_types (fields_names : List String) :
    List String × List String :=
  (fields_names.map (fun f => to_case_pascal f ++ "Error"),
   fields_names.map (fun f => to_case_pascal f ++ "From"))

/-- Embeds `TryFromInfo::new` (derive mode, `parsing_structs.rs` lines 114-132):
the enum name is `format!("{}TryFromError", pascal(type_name))`; the
metadata is the extracted `#[enum_error_meta(...)]` payload, or empty. -/
def TryFromInfo.new (name : String) (enum_error_meta : Option String)
    (fields_names : List String) : TryFromInfo where
  error_enum_metadata := enum_error_meta.getD ""
  error_enum_name := to_case_pascal name ++ "TryFromError"
  error_types := (error_types_and_try_from_types fields_names).1
  try_from_types := (error_types_and_try_from_types fields_names).2

/-- Embeds `TryFromInfo::new_from_macro_attribute_info` (`parsing_structs.rs`
lines 135-154): the enum name is the `error_enum_named(...)` override when
supplied, else `format!("{}_{}_error", type_name, fn_name)` pascal-cased,
with the literal `"TryFrom"` in place of an absent function name; the
metadata is the `error_enum_metadata(...)` entry or empty. -/
def TryFromInfo.new_from_macro_attribute_info (type_name : String)
    (fields_info : FieldsInfo) (constructor_fn_name : Option String)
    (error_enum_metadata_attr : Option String)
    (error_enum_named_attr : Option String) : TryFromInfo where
  error_enum_metadata := error_enum_metadata_attr.getD ""
  error_enum_name :=
    match error_enum_named_attr with
    | some n => n
    | none =>
        to_case_pascal
          (type_name ++ "_" ++ constructor_fn_name.getD "TryFrom" ++ "_error")
  error_types := (error_types_and_try_from_types fields_info.fields_names).1
  try_from_types := (error_types_and_try_from_types fields_info.fields_names).2

/-- The record constructed by the body both Direct forms emit (`lib.rs`
lines 355-364, trait form, after `let (#(#fields_names),*) = value;`
destructures the input composite into the active bindings in order; lines
371-379, named-function form, with the actives as parameters):
`Self { #(#fields_names,)* #(#no_from_fields : #no_from_fields_initializers),* }`,
read as an association list from field identifier to runtime value.
`evalInit` is the host language's evaluation of a passive initializer
token stream. -/
def from_struct_body {Val : Type} (fields_names : List String)
    (values : List Val) (no_from_fields : List String)
    (no_from_fields_initializers : List String) (evalInit : String → Val) :
    List (String × Val) :=
  fields_names.zip values ++
    no_from_fields.zip (no_from_fields_initializers.map evalInit)

/-- The statement chain both Fallible forms emit (`lib.rs` lines 304-305,
trait form, and 331-332, named-function form):
`#(let #fields_names = <#fields_types>::try_from(#fields_names)
.map_err(|error| #error_enum_name::#error_types(error))?;)*` — one
conversion per active field, run left to right, the `?` short-circuiting
on the first failure to the error variant paired with that field,
carrying the field's underlying error. -/
def try_from_chain {Val Err : Type} :
    List String → List (Val → Except Err Val) → List Val →
    Except (String × Err) (List Val)
  | ev :: evs, c :: cs, v :: vs =>
    (match c v with
      | .error e => .error (ev, e)
      | .ok w =>
        match try_from_chain evs cs vs with
        | .error r => .error r
        | .ok ws => .ok (w :: ws))
  | _, _, _ => .ok []

/-- The full Fallible body (`lib.rs` lines 301-312 and 330-339): run the
conversion chain, and only if every conversion succeeded construct
`Ok(#name { #(#fields_names,)* #(#no_from_fields :
#no_from_fields_initializers,)* })`. -/
def try_from_struct_body {Val Err : Type} (fields_names : List String)
    (error_types : List String) (convs : List (Val → Except Err Val))
    (values : List Val) (no_from_fields : List String)
    (no_from_fields_initializers : List String) (evalInit : String → Val) :
    Except (String × Err) (List (String × Val)) :=
  match try_from_chain error_types convs values with
  | .error r => .error r
  | .ok ws =>
      .ok (fields_names.zip ws ++
        no_from_fields.zip (no_from_fields_initializers.map evalInit))

/-- An enum variant as the `From` derive sees it: its identifier, its
fields (optional identifier — `none` for positional fields — and type
tokens), and whether it carries the `#[no_from]` skip marker. -/
structure EVariant where
  ident : String
  fields : List (Option String × String)
  no_from : Bool
deriving DecidableEq, Repr

/-- Interpretation of the emitted source type `(#(#types),*)` under the
host language's rules: `()` is the unit composite, `(T)` is bare `T` (a
parenthesized type, not a one-tuple), and two or more types form a
tuple. -/
inductive Composite where
  | unit
  | single (t : String)
  | tuple (ts : List String)
deriving DecidableEq, Repr

/-- Renders a type list as the composite the emitted `(#(#types),*)`
denotes. -/
def compositeOfTypes : List String → Composite
  | [] => .unit
  | [t] => .single t
  | ts => .tuple ts

/-- One generated per-variant conversion impl: the source composite of
`impl core::convert::From<(#(#types),*)> for #name`, the constructed
variant, and the `#(#fieldnames : value #indexes),*` assignments. -/
structure VariantImpl where
  target : String
  source : Composite
  variant_name : String
  field_assignments : List (String × String)
deriving DecidableEq, Repr

/-- The per-variant closure of `tokens_for__from__for_enum` (`lib.rs`
lines 388-425): field names default to the positional index rendered as
text; the projections applied to `value` are nothing for zero fields, the
empty projection (the bare value) for one field, and `.0`, `.1`, ... for
two or more.  (The `is_named` flag the source also computes feeds only
the no-op diagnostic hook.) -/
def impl_for_variant (name : String) (variant : EVariant) : VariantImpl :=
  let types := variant.fields.map Prod.snd
  let fieldnames := variant.fields.enum.map
    (fun p => (p.2.1).getD (toString p.1))
  let indexes : List String :=
    match fieldnames.length with
    | 0 => []
    | 1 => [""]
    | _ => (List.range fieldnames.length).map (fun i => "." ++ toString i)
  { target := name
    source := compositeOfTypes types
    variant_name := variant.ident
    field_assignments := fieldnames.zip (indexes.map (fun ix => "value" ++ ix)) }

/-- Embeds `tokens_for__from__for_enum` (`lib.rs` lines 385-432): map the
per-variant impl over the variants not marked `#[no_from]`, then
`impls.into_iter().reduce(concat).unwrap()` — the reduction of the empty
list is `None`, so `none` here models the unconditional `unwrap` panic
when no variant is eligible. -/
def tokens_for__from__for_enum (name : String) (variants : List EVariant) :
    Option (List VariantImpl) :=
  let impls := (variants.filter (fun v => !v.no_from)).map (impl_for_variant name)
  match impls with
  | [] => none
  | _ => some impls

/-! ## Theorems -/

theorem zip_map_fst_snd {α β : Type} (l : List (α × β)) :
    (l.map Prod.fst).zip (l.map Prod.snd) = l := by
  induction l <;> simp_all

/-- Running the loop over a well-formed stream accepts every pair:
identifiers and groups are appended to the accumulators in order. -/
theorem idents_and_groups_loop_pairsToStream (sep : Char)
    (ps : List (String × String)) :
    ∀ idents groups : List String,
      idents_and_groups_loop .identPhase idents groups (pairsToStream sep ps)
        = .ok (idents ++ ps.map Prod.fst, groups ++ ps.map Prod.snd) := by
  induction ps with
  | nil => intro idents groups; simp [pairsToStream, idents_and_groups_loop]
  | cons p tail ih =>
    intro idents groups
    obtain ⟨n, g⟩ := p
    cases tail with
    | nil => simp [pairsToStream, idents_and_groups_loop]
    | cons q tail2 =>
      simp only [pairsToStream, idents_and_groups_loop]
      rw [ih]
      simp

/-- Running the loop over a well-formed non-empty stream followed by
further tokens: the loop reaches the separator-expecting phase with all
pairs accumulated, then continues on the remaining tokens. -/
theorem idents_and_groups_loop_pairsToStream_append (sep : Char)
    (ps : List (String × String)) (hne : ps ≠ []) (extra : List TokenTree) :
    ∀ idents groups : List String,
      idents_and_groups_loop .identPhase idents groups
          (pairsToStream sep ps ++ extra)
        = idents_and_groups_loop .punctPhase (idents ++ ps.map Prod.fst)
            (groups ++ ps.map Prod.snd) extra := by
  induction ps with
  | nil => exact absurd rfl hne
  | cons p tail ih =>
    intro idents groups
    obtain ⟨n, g⟩ := p
    cases tail with
    | nil => simp [pairsToStream, idents_and_groups_loop]
    | cons q tail2 =>
      simp only [pairsToStream, List.cons_append, idents_and_groups_loop,
        List.append_eq]
      rw [ih (by simp)]
      simp

/-- Parsing a well-formed stream with `idents_and_groups_from` returns exactly the
ordered pairs, for any punctuation character used as separator. -/
theorem idents_and_groups_from_pairsToStream (sep : Char)
    (ps : List (String × String)) :
    idents_and_groups_from (pairsToStream sep ps) = .ok ps := by
  unfold idents_and_groups_from
  rw [idents_and_groups_loop_pairsToStream]
  simp [zip_map_fst_snd]

/-- Whenever a parse error's format string interpolates an identifier,
the rendered message text contains that identifier between apostrophes. -/
theorem ParseError.message_mentions (err : ParseError) (i : String)
    (h : err.mentionedIdent = some i) :
    (quoteChar ++ i ++ quoteChar).data <:+: err.message.data := by
  cases err with
  | expectedName prev =>
    cases prev with
    | none => simp [ParseError.mentionedIdent] at h
    | some j =>
      simp [ParseError.mentionedIdent] at h
      subst h
      exact ⟨("Expected a name" ++ " after group named ").data,
        (", for example, " ++ quoteChar ++ "group_name" ++ quoteChar ++
          " in " ++ quoteChar ++ "group_name(my group" ++ quoteChar ++
          "s description)" ++ quoteChar).data,
        by simp [ParseError.message]⟩
  | expectedGroup j =>
    simp [ParseError.mentionedIdent] at h
    subst h
    exact ⟨"Expected a group after group named ".data,
      (", for example, " ++ quoteChar ++ "(my group" ++ quoteChar ++
        "s description)" ++ quoteChar ++ " in " ++ quoteChar ++
        "group_name(my group" ++ quoteChar ++ "s description)" ++
        quoteChar).data,
      by simp [ParseError.message]⟩
  | expectedSeparator j =>
    simp [ParseError.mentionedIdent] at h
    subst h
    exact ⟨"Expected a separator after group named ".data,
      (", for example, the comma (" ++ quoteChar ++ "," ++ quoteChar ++
        ") in " ++ quoteChar ++ "group1(desc), group2(desc)" ++
        quoteChar).data,
      by simp [ParseError.message]⟩
  | expectedGroupAtEnd j => simp [ParseError.mentionedIdent] at h

/-- C10: the Token-Group Parser accepts any single punctuation token as
the separator between consecutive name(group) pairs, not only the comma:
for every punctuation character `p`, the stream `a(1) p b(2)` parses
successfully to the same ordered pairs as `a(1), b(2)`. -/
theorem claim_C10_any_punct_separator (p : Char) :
    idents_and_groups_from
        [.ident "a", .group "1", .punct p, .ident "b", .group "2"]
      = .ok [("a", "1"), ("b", "2")] ∧
    idents_and_groups_from
        [.ident "a", .group "1", .punct ',', .ident "b", .group "2"]
      = .ok [("a", "1"), ("b", "2")] :=
  ⟨idents_and_groups_from_pairsToStream p [("a", "1"), ("b", "2")], rfl⟩

/-- C2 (amended): parsing a well-formed stream `n1(g1), n2(g2), ...`
yields exactly the ordered pairs (e.g. `a(1), b(2,3), c()` yields
[(a,"1"), (b,"2,3"), (c,"")]); a token outside the state that admits it
fails with the expectation error for that state, which names the
previously accepted identifier, if any; two groups with no separator fail
with the separator-expected error naming the identifier of the completed
pair; a trailing identifier at end of stream fails with the
group-expected error — whose message, contrary to the original claim,
names no identifier (the identifier is carried only as the error's
span). -/
theorem claim_C2_token_groups :
    (∀ (sep : Char) (ps : List (String × String)),
      idents_and_groups_from (pairsToStream sep ps) = .ok ps) ∧
    idents_and_groups_from
        [.ident "a", .group "1", .punct ',', .ident "b", .group "2,3",
          .punct ',', .ident "c", .group ""]
      = .ok [("a", "1"), ("b", "2,3"), ("c", "")] ∧
    (∀ (t : TokenTree) (rest : List TokenTree), (∀ s, t ≠ .ident s) →
      idents_and_groups_from (t :: rest) = .error (.expectedName none)) ∧
    (∀ (sep : Char) (ps : List (String × String)) (t : TokenTree)
        (rest : List TokenTree), ps ≠ [] → (∀ s, t ≠ .ident s) →
      idents_and_groups_from
          (pairsToStream sep ps ++ .punct sep :: t :: rest)
        = .error (.expectedName (ps.map Prod.fst).getLast?)) ∧
    (∀ (n : String) (t : TokenTree) (rest : List TokenTree),
        (∀ g, t ≠ .group g) →
      idents_and_groups_from (.ident n :: t :: rest)
        = .error (.expectedGroup n)) ∧
    (∀ (sep : Char) (ps : List (String × String)) (n g : String)
        (t : TokenTree) (rest : List TokenTree), (∀ c, t ≠ .punct c) →
      idents_and_groups_from
          (pairsToStream sep (ps ++ [(n, g)]) ++ t :: rest)
        = .error (.expectedSeparator n)) ∧
    (∀ (n : String),
      idents_and_groups_from [.ident n] = .error (.expectedGroupAtEnd n)) ∧
    (∀ (sep : Char) (ps : List (String × String)) (n : String), ps ≠ [] →
      idents_and_groups_from (pairsToStream sep ps ++ [.punct sep, .ident n])
        = .error (.expectedGroupAtEnd n)) ∧
    (∀ (n : String),
      (ParseError.expectedGroupAtEnd n).mentionedIdent = none) := by
  refine ⟨idents_and_groups_from_pairsToStream, rfl, ?_, ?_, ?_, ?_, ?_, ?_,
    fun n => rfl⟩
  · intro t rest ht
    cases t with
    | ident s => exact absurd rfl (ht s)
    | group g => rfl
    | punct c => rfl
    | literal s => rfl
  · intro sep ps t rest hne ht
    unfold idents_and_groups_from
    rw [idents_and_groups_loop_pairsToStream_append sep ps hne]
    cases t with
    | ident s => exact absurd rfl (ht s)
    | group g => simp [idents_and_groups_loop]
    | punct c => simp [idents_and_groups_loop]
    | literal s => simp [idents_and_groups_loop]
  · intro n t rest ht
    cases t with
    | group g => exact absurd rfl (ht g)
    | ident s => rfl
    | punct c => rfl
    | literal s => rfl
  · intro sep ps n g t rest ht
    unfold idents_and_groups_from
    rw [idents_and_groups_loop_pairsToStream_append sep (ps ++ [(n, g)])
      (by simp)]
    cases t with
    | punct c => exact absurd rfl (ht c)
    | ident s => simp [idents_and_groups_loop, List.getLast?_concat]
    | group g2 => simp [idents_and_groups_loop, List.getLast?_concat]
    | literal s => simp [idents_and_groups_loop, List.getLast?_concat]
  · intro n; rfl
  · intro sep ps n hne
    unfold idents_and_groups_from
    rw [idents_and_groups_loop_pairsToStream_append sep ps hne]
    simp [idents_and_groups_loop, List.getLast?_concat]

set_option maxRecDepth 10000 in
/-- C2 counterexample: parsing the trailing-identifier stream
`foo(1), bar` fails — but with the end-of-stream error whose constant
message names no previously accepted identifier (neither `foo` nor `bar`
occurs in the text), contradicting the claim that every such failure's
message names the previously accepted identifier when one exists. -/
theorem claim_C2_counterexample :
    idents_and_groups_from
        [.ident "foo", .group "1", .punct ',', .ident "bar"]
      = .error (.expectedGroupAtEnd "bar") ∧
    (ParseError.expectedGroupAtEnd "bar").mentionedIdent = none ∧
    ¬ "bar".data <:+: (ParseError.expectedGroupAtEnd "bar").message.data ∧
    ¬ "foo".data <:+: (ParseError.expectedGroupAtEnd "bar").message.data :=
  ⟨rfl, rfl, by decide, by decide⟩

/-- C2 witness: the amended theorem applied at concrete inputs. -/
theorem claim_C2_witness :
    idents_and_groups_from
        [.ident "aa", .group "1", .punct ';', .ident "bb", .group "2"]
      = .ok [("aa", "1"), ("bb", "2")] ∧
    idents_and_groups_from [.literal "7"] = .error (.expectedName none) ∧
    idents_and_groups_from [.ident "aa", .group "1", .group "2"]
      = .error (.expectedSeparator "aa") ∧
    idents_and_groups_from [.ident "aa", .group "1", .punct ',', .ident "bb"]
      = .error (.expectedGroupAtEnd "bb") := by
  refine ⟨claim_C2_token_groups.1 ';' [("aa", "1"), ("bb", "2")],
    claim_C2_token_groups.2.2.1 (.literal "7") []
      (fun s h => TokenTree.noConfusion h),
    claim_C2_token_groups.2.2.2.2.2.1 ';' [] "aa" "1" (.group "2") []
      (fun c h => TokenTree.noConfusion h),
    claim_C2_token_groups.2.2.2.2.2.2.2.1 ',' [("aa", "1")] "bb"
      (by simp)⟩

theorem zip_self_map {α β : Type} (u : List α) (f : α → β) :
    u.zip (u.map f) = u.map (fun a => (a, f a)) := by
  induction u <;> simp_all

theorem mapM_eq_none_of_mem {α β : Type} (g : α → Option β) (l : List α)
    (a : α) (ha : a ∈ l) (hg : g a = none) : l.mapM g = none := by
  induction l with
  | nil => cases ha
  | cons x xs ih =>
    rw [List.mapM_cons]
    rcases List.mem_cons.mp ha with h | h
    · subst h; rw [hg]; rfl
    · cases hx : g x with
      | none => rfl
      | some b =>
        show Option.bind (xs.mapM g) _ = none
        rw [ih h]
        rfl

theorem mapM_isSome_of_mem {α β : Type} (g : α → Option β) (l : List α)
    (r : List β) (hr : l.mapM g = some r) (a : α) (ha : a ∈ l) :
    (g a).isSome := by
  by_contra h
  rw [mapM_eq_none_of_mem g l a ha (by cases hga : g a <;> simp_all)] at hr
  cases hr

/-- C1 counterexample: in attribute mode, on a type declaring only the
field `a`, the configuration `defaults(b(1))` references the unknown
field `b` — yet generation does not fail: it succeeds, carrying the
unknown name `b` in the passive-field list. -/
theorem claim_C1_counterexample :
    FieldsInfo.new_from_macro_attribute_info
        [⟨"a", "u8", none⟩] ⟨some [.ident "b", .group "1"], none⟩
      = some ⟨["a"], ["u8"], ["b"], ["1"]⟩ := rfl

/-- C1 (amended): in attribute mode, a field identifier named in the
`fields` list that does not occur among the type's declared fields makes
generation fail hard at generation time (the type-lookup `unwrap` panic);
unknown field references made in `defaults`, by contrast, are not
detected at generation time. -/
theorem claim_C1_unknown_field_in_fields_fails (data : List DField)
    (attr : AttrFieldsConfig) (l : List String) (f : String)
    (hl : attr.fields = some l) (hf : f ∈ l)
    (hnot : ∀ d ∈ data, d.ident ≠ f) :
    FieldsInfo.new_from_macro_attribute_info data attr = none := by
  unfold FieldsInfo.new_from_macro_attribute_info
  cases hd : parsed_defaults attr with
  | none => rfl
  | some pairs =>
    have hfind : data.find? (fun d => d.ident == f) = none := by
      rw [List.find?_eq_none]
      intro d hdm
      simpa using hnot d hdm
    have hmapM : l.mapM
        (fun c => (data.find? (fun d => d.ident == c)).map (fun d => d.ty))
        = none :=
      mapM_eq_none_of_mem _ l f hf (by rw [hfind]; rfl)
    simp only [hd, Option.bind_eq_bind, Option.some_bind, hl,
      Option.getD_some, hmapM, Option.none_bind]

/-- C1 witness: the amended theorem applied to a type declaring only `a`
with configuration `fields(zzz)`. -/
theorem claim_C1_witness :
    FieldsInfo.new_from_macro_attribute_info [⟨"a", "u8", none⟩]
        ⟨none, some ["zzz"]⟩ = none :=
  claim_C1_unknown_field_in_fields_fails _ _ ["zzz"] "zzz" rfl (by simp)
    (by decide)

/-- C7: in attribute mode, every declared field mentioned in neither the
`fields` list nor the `defaults` map becomes a passive field whose
generated initializer is the canonical default-construction expression
`core::default::Default::default()`. -/
theorem claim_C7_default_completeness (data : List DField)
    (attr : AttrFieldsConfig) (info : FieldsInfo) (l : List String)
    (pairs : List (String × String)) (x : String)
    (hl : attr.fields = some l) (hd : parsed_defaults attr = some pairs)
    (hres : FieldsInfo.new_from_macro_attribute_info data attr = some info)
    (hx : x ∈ data.map (fun d => d.ident)) (hxl : x ∉ l)
    (hxd : x ∉ pairs.map Prod.fst) :
    (x, default_initializer)
      ∈ info.no_from_fields.zip info.no_from_fields_initializers := by
  unfold FieldsInfo.new_from_macro_attribute_info at hres
  rw [hd] at hres
  simp only [Option.bind_eq_bind, Option.some_bind, hl, Option.getD_some]
    at hres
  cases hm : l.mapM
      (fun c => (data.find? (fun d => d.ident == c)).map (fun d => d.ty)) with
  | none => rw [hm] at hres; cases hres
  | some tys =>
    rw [hm] at hres
    simp only [Option.some_bind, Option.some.injEq] at hres
    subst hres
    simp only
    rw [List.zip_append (by simp)]
    refine List.mem_append_right _ ?_
    have hxu : x ∈ (data.map (fun d => d.ident)).filter
        (fun n => !(l.contains n) && !((pairs.map Prod.fst).contains n)) := by
      refine List.mem_filter.mpr ⟨hx, ?_⟩
      simp only [Bool.and_eq_true, Bool.not_eq_true]
      constructor
      · cases hc : l.contains x
        · rfl
        · exact absurd (List.elem_iff.mp hc) hxl
      · cases hc : (pairs.map Prod.fst).contains x
        · rfl
        · exact absurd (List.elem_iff.mp hc) hxd
    rw [zip_self_map]
    exact List.mem_map.mpr ⟨x, hxu, rfl⟩

/-- C7 witness: the crate's own doc-example configuration
`fields(name, age), defaults(years_studied(4))` on the four-field record:
`times_appeared` is mentioned in neither list and receives the canonical
default initializer. -/
theorem claim_C7_witness :
    ("times_appeared", default_initializer)
      ∈ (FieldsInfo.mk ["name", "age"] ["String", "u8"]
          ["years_studied", "times_appeared"]
          ["4", default_initializer]).no_from_fields.zip
        (FieldsInfo.mk ["name", "age"] ["String", "u8"]
          ["years_studied", "times_appeared"]
          ["4", default_initializer]).no_from_fields_initializers :=
  claim_C7_default_completeness
    [⟨"name", "String", none⟩, ⟨"age", "u8", none⟩,
      ⟨"times_appeared", "u8", none⟩, ⟨"years_studied", "u8", none⟩]
    ⟨some [.ident "years_studied", .group "4"], some ["name", "age"]⟩
    _ ["name", "age"] [("years_studied", "4")] "times_appeared"
    rfl rfl rfl (by decide) (by decide) (by decide)

theorem contains_eq_false_of_not_mem {α : Type} [BEq α] [LawfulBEq α]
    (l : List α) (x : α) (h : x ∉ l) : l.contains x = false := by
  cases hc : l.contains x
  · rfl
  · exact absurd (List.elem_iff.mp hc) h

theorem not_mem_of_contains_eq_false {α : Type} [BEq α] [LawfulBEq α]
    (l : List α) (x : α) (h : l.contains x = false) : x ∉ l := by
  intro hm
  have ht : l.contains x = true := List.elem_iff.mpr hm
  rw [h] at ht
  cases ht

/-- C5 counterexample: in attribute mode, the configuration
`fields(a), defaults(a(1))` on a type declaring only the field `a` puts
`a` simultaneously in the active and in the passive list: the resolved
field set is not a partition (active and passive identifiers are not
disjoint), yet generation succeeds. -/
theorem claim_C5_counterexample :
    FieldsInfo.new_from_macro_attribute_info [⟨"a", "u8", none⟩]
        ⟨some [.ident "a", .group "1"], some ["a"]⟩
      = some (FieldsInfo.mk ["a"] ["u8"] ["a"] ["1"]) ∧
    ¬ (FieldsInfo.mk ["a"] ["u8"] ["a"] ["1"]).fields_names.Disjoint
        (FieldsInfo.mk ["a"] ["u8"] ["a"] ["1"]).no_from_fields :=
  ⟨rfl, fun hdis =>
    hdis (List.mem_singleton.mpr rfl) (List.mem_singleton.mpr rfl)⟩

/-- C5 (amended): the resolved FieldSet is a partition of the declared
field identifiers — disjoint active and passive lists whose union is
exactly the declared set, with no duplicates and no omissions — holds
unconditionally in derive mode for any record with distinct declared
fields; in attribute mode it holds provided the `fields` list and the
`defaults` keys are each duplicate-free, mutually disjoint, and the
`defaults` keys are declared (the `fields` entries are forced to be
declared by generation succeeding).  Both attribute-mode cases are
covered: an explicit `fields(...)` entry, and an absent one, where the
active list defaults to every declared field not claimed by `defaults`
and the conditions on the explicit list hold vacuously. -/
theorem claim_C5_partition_invariant :
    (∀ (fields : List DField), (fields.map (fun f => f.ident)).Nodup →
      ((FieldsInfo.new_from_derive_data_struct fields).fields_names ++
          (FieldsInfo.new_from_derive_data_struct fields).no_from_fields).Nodup ∧
      (∀ x, (x ∈ (FieldsInfo.new_from_derive_data_struct fields).fields_names ++
          (FieldsInfo.new_from_derive_data_struct fields).no_from_fields) ↔
          x ∈ fields.map (fun f => f.ident)) ∧
      (FieldsInfo.new_from_derive_data_struct fields).fields_names.Disjoint
        (FieldsInfo.new_from_derive_data_struct fields).no_from_fields) ∧
    (∀ (data : List DField) (attr : AttrFieldsConfig) (info : FieldsInfo)
        (l : List String) (pairs : List (String × String)),
      attr.fields = some l → parsed_defaults attr = some pairs →
      FieldsInfo.new_from_macro_attribute_info data attr = some info →
      (data.map (fun d => d.ident)).Nodup →
      l.Nodup → (pairs.map Prod.fst).Nodup →
      l.Disjoint (pairs.map Prod.fst) →
      (∀ x ∈ pairs.map Prod.fst, x ∈ data.map (fun d => d.ident)) →
      (info.fields_names ++ info.no_from_fields).Nodup ∧
      (∀ x, (x ∈ info.fields_names ++ info.no_from_fields) ↔
          x ∈ data.map (fun d => d.ident)) ∧
      info.fields_names.Disjoint info.no_from_fields) ∧
    (∀ (data : List DField) (attr : AttrFieldsConfig) (info : FieldsInfo)
        (pairs : List (String × String)),
      attr.fields = none → parsed_defaults attr = some pairs →
      FieldsInfo.new_from_macro_attribute_info data attr = some info →
      (data.map (fun d => d.ident)).Nodup →
      (pairs.map Prod.fst).Nodup →
      (∀ x ∈ pairs.map Prod.fst, x ∈ data.map (fun d => d.ident)) →
      (info.fields_names ++ info.no_from_fields).Nodup ∧
      (∀ x, (x ∈ info.fields_names ++ info.no_from_fields) ↔
          x ∈ data.map (fun d => d.ident)) ∧
      info.fields_names.Disjoint info.no_from_fields) := by
  refine ⟨?_, ?_, ?_⟩
  · intro fields hnd
    have hq : fields.filter (fun f => f.no_from.isSome)
        = fields.filter (fun f => !(f.no_from.isNone)) :=
      List.filter_congr (fun x _ => by cases x.no_from <;> rfl)
    have hperm :
        ((FieldsInfo.new_from_derive_data_struct fields).fields_names ++
          (FieldsInfo.new_from_derive_data_struct fields).no_from_fields).Perm
          (fields.map (fun f => f.ident)) := by
      show ((fields.filter _).map _ ++ (fields.filter _).map _).Perm _
      rw [hq, ← List.map_append]
      exact (List.filter_append_perm _ fields).map _
    have hnodup := hperm.nodup_iff.mpr hnd
    exact ⟨hnodup, fun x => hperm.mem_iff,
      (List.nodup_append.mp hnodup).2.2⟩
  · intro data attr info l pairs hl hd hres hndd hndl hnddk hdisj hdksub
    unfold FieldsInfo.new_from_macro_attribute_info at hres
    rw [hd] at hres
    simp only [Option.bind_eq_bind, Option.some_bind, hl, Option.getD_some]
      at hres
    cases hm : l.mapM
        (fun c => (data.find? (fun d => d.ident == c)).map (fun d => d.ty)) with
    | none => rw [hm] at hres; cases hres
    | some tys =>
      rw [hm] at hres
      simp only [Option.some_bind, Option.some.injEq] at hres
      subst hres
      simp only
      have hlsub : ∀ f ∈ l, f ∈ data.map (fun d => d.ident) := by
        intro f hf
        have hsome := mapM_isSome_of_mem _ l tys hm f hf
        cases hfd : data.find? (fun d => d.ident == f) with
        | none => rw [hfd] at hsome; cases hsome
        | some d =>
          have hdm := List.mem_of_find?_eq_some hfd
          have hp : d.ident = f := by simpa using List.find?_some hfd
          exact List.mem_map.mpr ⟨d, hdm, hp⟩
      have hul : ∀ x ∈ (data.map (fun d => d.ident)).filter
          (fun n => !(l.contains n) &&
            !((pairs.map Prod.fst).contains n)), x ∉ l := by
        intro x hx
        have hcond := (List.mem_filter.mp hx).2
        simp only [Bool.and_eq_true, Bool.not_eq_true'] at hcond
        exact not_mem_of_contains_eq_false l x hcond.1
      have hudk : ∀ x ∈ (data.map (fun d => d.ident)).filter
          (fun n => !(l.contains n) &&
            !((pairs.map Prod.fst).contains n)), x ∉ pairs.map Prod.fst := by
        intro x hx
        have hcond := (List.mem_filter.mp hx).2
        simp only [Bool.and_eq_true, Bool.not_eq_true'] at hcond
        exact not_mem_of_contains_eq_false _ x hcond.2
      have hnu : ((data.map (fun d => d.ident)).filter
          (fun n => !(l.contains n) &&
            !((pairs.map Prod.fst).contains n))).Nodup :=
        hndd.filter _
      have hnodup : (l ++ (pairs.map Prod.fst ++
          (data.map (fun d => d.ident)).filter
            (fun n => !(l.contains n) &&
              !((pairs.map Prod.fst).contains n)))).Nodup := by
        rw [List.nodup_append, List.nodup_append]
        refine ⟨hndl, ⟨hnddk, hnu, fun a ha hau => hudk a hau ha⟩,
          fun a ha hmem => ?_⟩
        rcases List.mem_append.mp hmem with h2 | h2
        · exact hdisj ha h2
        · exact hul a h2 ha
      refine ⟨hnodup, fun x => ?_, (List.nodup_append.mp hnodup).2.2⟩
      constructor
      · intro hmem
        rcases List.mem_append.mp hmem with h2 | h2
        · exact hlsub x h2
        · rcases List.mem_append.mp h2 with h3 | h3
          · exact hdksub x h3
          · exact (List.mem_filter.mp h3).1
      · intro hxd
        by_cases hxl : x ∈ l
        · exact List.mem_append.mpr (Or.inl hxl)
        · by_cases hxdk : x ∈ pairs.map Prod.fst
          · exact List.mem_append.mpr (Or.inr (List.mem_append.mpr (Or.inl hxdk)))
          · refine List.mem_append.mpr (Or.inr (List.mem_append.mpr (Or.inr ?_)))
            refine List.mem_filter.mpr ⟨hxd, ?_⟩
            simp only [Bool.and_eq_true, Bool.not_eq_true']
            exact ⟨contains_eq_false_of_not_mem l x hxl,
              contains_eq_false_of_not_mem _ x hxdk⟩
  · intro data attr info pairs hlnone hd hres hndd hnddk hdksub
    unfold FieldsInfo.new_from_macro_attribute_info at hres
    rw [hd] at hres
    simp only [Option.bind_eq_bind, Option.some_bind, hlnone,
      Option.getD_none] at hres
    cases hm : ((data.filter
        (fun f => !((pairs.map Prod.fst).contains f.ident))).map
          (fun f => f.ident)).mapM
        (fun c => (data.find? (fun d => d.ident == c)).map (fun d => d.ty)) with
    | none => rw [hm] at hres; cases hres
    | some tys =>
      rw [hm] at hres
      simp only [Option.some_bind, Option.some.injEq] at hres
      subst hres
      simp only
      have hmemact : ∀ x ∈ data.map (fun d => d.ident),
          ((pairs.map Prod.fst).contains x) = false →
          x ∈ (data.filter
            (fun f => !((pairs.map Prod.fst).contains f.ident))).map
              (fun f => f.ident) := by
        intro x hx hc
        obtain ⟨d, hdm, hdi⟩ := List.mem_map.mp hx
        refine List.mem_map.mpr ⟨d, List.mem_filter.mpr ⟨hdm, ?_⟩, hdi⟩
        rw [hdi, hc]
        rfl
      have hun : (data.map (fun f => f.ident)).filter
          (fun n => !(((data.filter
              (fun f => !((pairs.map Prod.fst).contains f.ident))).map
                (fun f => f.ident)).contains n) &&
            !((pairs.map Prod.fst).contains n)) = [] := by
        rw [List.filter_eq_nil_iff]
        intro x hx
        simp only [Bool.and_eq_true, Bool.not_eq_true', not_and]
        intro hxa hxdk
        exact (not_mem_of_contains_eq_false _ x hxa) (hmemact x hx hxdk)
      rw [hun, List.append_nil]
      have hactsub : ((data.filter
          (fun f => !((pairs.map Prod.fst).contains f.ident))).map
            (fun f => f.ident)).Sublist (data.map (fun f => f.ident)) :=
        (List.filter_sublist data).map _
      have hactnd : ((data.filter
          (fun f => !((pairs.map Prod.fst).contains f.ident))).map
            (fun f => f.ident)).Nodup :=
        List.Nodup.sublist hactsub hndd
      have hdisj2 : ∀ x ∈ (data.filter
          (fun f => !((pairs.map Prod.fst).contains f.ident))).map
            (fun f => f.ident), x ∉ pairs.map Prod.fst := by
        intro x hx
        obtain ⟨d, hdf, hdi⟩ := List.mem_map.mp hx
        have hcond := (List.mem_filter.mp hdf).2
        simp only [Bool.not_eq_true'] at hcond
        rw [hdi] at hcond
        exact not_mem_of_contains_eq_false _ x hcond
      have hnodup : (((data.filter
          (fun f => !((pairs.map Prod.fst).contains f.ident))).map
            (fun f => f.ident)) ++ pairs.map Prod.fst).Nodup := by
        rw [List.nodup_append]
        exact ⟨hactnd, hnddk, fun a ha hb => hdisj2 a ha hb⟩
      refine ⟨hnodup, fun x => ?_, (List.nodup_append.mp hnodup).2.2⟩
      constructor
      · intro hmem
        rcases List.mem_append.mp hmem with h2 | h2
        · exact hactsub.subset h2
        · exact hdksub x h2
      · intro hxd
        cases hc : (pairs.map Prod.fst).contains x with
        | false => exact List.mem_append.mpr (Or.inl (hmemact x hxd hc))
        | true => exact List.mem_append.mpr (Or.inr (List.elem_iff.mp hc))

/-- C5 witness: all three cases applied at concrete records — the
derive-mode record `{name, age, #[no_from] times_appeared}`, the
attribute-mode configuration `fields(name), defaults(age(7))` on
`{name, age, extra}`, and the defaults-only configuration
`defaults(age(7))` (no `fields` entry) on `{name, age}`. -/
theorem claim_C5_witness :
    ((["name", "age"] ++ ["times_appeared"] : List String).Nodup ∧
      (∀ x, (x ∈ (["name", "age"] ++ ["times_appeared"] : List String)) ↔
          x ∈ ["name", "age", "times_appeared"]) ∧
      (["name", "age"] : List String).Disjoint ["times_appeared"]) ∧
    ((["name"] ++ ["age", "extra"] : List String).Nodup ∧
      (∀ x, (x ∈ (["name"] ++ ["age", "extra"] : List String)) ↔
          x ∈ ["name", "age", "extra"]) ∧
      (["name"] : List String).Disjoint ["age", "extra"]) ∧
    ((["name"] ++ ["age"] : List String).Nodup ∧
      (∀ x, (x ∈ (["name"] ++ ["age"] : List String)) ↔
          x ∈ ["name", "age"]) ∧
      (["name"] : List String).Disjoint ["age"]) := by
  refine ⟨?_, ?_, ?_⟩
  · have := claim_C5_partition_invariant.1
      [⟨"name", "String", none⟩, ⟨"age", "u8", none⟩,
        ⟨"times_appeared", "u8", some none⟩] (by decide)
    exact this
  · have := claim_C5_partition_invariant.2.1
      [⟨"name", "String", none⟩, ⟨"age", "u8", none⟩, ⟨"extra", "u8", none⟩]
      ⟨some [.ident "age", .group "7"], some ["name"]⟩
      (FieldsInfo.mk ["name"] ["String"] ["age", "extra"]
        ["7", default_initializer])
      ["name"] [("age", "7")] rfl rfl rfl (by decide) (by decide) (by decide)
      (by intro a ha hb; simp at ha hb; subst ha; exact absurd hb (by decide))
      (by decide)
    exact this
  · have := claim_C5_partition_invariant.2.2
      [⟨"name", "String", none⟩, ⟨"age", "u8", none⟩]
      ⟨some [.ident "age", .group "7"], none⟩
      (FieldsInfo.mk ["name"] ["String"] ["age"] ["7"])
      [("age", "7")] rfl rfl rfl (by decide) (by decide) (by decide)
    exact this

/-- The `#(#fieldnames : value #indexes),*` assignment list emitted for a
variant with two or more fields, rewritten as a single map over the
enumerated fields. -/
theorem value_assignments (u : List (Option String × String)) :
    ((u.enum.map (fun p => (p.2.1).getD (toString p.1))).zip
      (((List.range
            (u.enum.map (fun p => (p.2.1).getD (toString p.1))).length).map
        (fun i => "." ++ toString i)).map (fun ix => "value" ++ ix)))
    = u.enum.map (fun p => ((p.2.1).getD (toString p.1),
        "value." ++ toString p.1)) := by
  have hl : (u.enum.map (fun p => (p.2.1).getD (toString p.1))).length
      = u.length := by simp
  rw [hl, List.map_map,
    show List.range u.length = u.enum.map Prod.fst from
      (List.enum_map_fst u).symm,
    List.map_map, List.zip_map']
  refine List.map_congr_left ?_
  intro p hp
  simp only [Function.comp_apply]
  rw [← String.append_assoc]
  rfl

/-- C6: for the fallible pattern, the synthesized error shape has exactly
one (placeholder-type, error-variant) identifier pair per active field,
in active-field order, named `Pascal(field) ++ "From"` and
`Pascal(field) ++ "Error"`; the error enum's name is the caller's
explicit override when supplied, and otherwise the Pascal-cased form of
`<TypeName>_<function name>_error`, with the literal segment `TryFrom`
in place of the function name when none is given — e.g. record `Foo`
with function `new` yields `FooNewError`, and with no named function
`FooTryFromError`. -/
theorem claim_C6_error_shape :
    (∀ (fields_names : List String),
      (TryFromInfo.error_types_and_try_from_types fields_names).1.length
          = fields_names.length ∧
      (TryFromInfo.error_types_and_try_from_types fields_names).2.length
          = fields_names.length ∧
      ∀ (i : Nat),
        ((TryFromInfo.error_types_and_try_from_types fields_names).2)[i]?
            = (fields_names[i]?).map (fun f => to_case_pascal f ++ "From") ∧
        ((TryFromInfo.error_types_and_try_from_types fields_names).1)[i]?
            = (fields_names[i]?).map (fun f => to_case_pascal f ++ "Error")) ∧
    (∀ (type_name : String) (fi : FieldsInfo) (fn : Option String)
        (meta ov : Option String),
      (TryFromInfo.new_from_macro_attribute_info type_name fi fn meta
          (some (ov.getD ""))).error_enum_name = ov.getD "" ∧
      (TryFromInfo.new_from_macro_attribute_info type_name fi fn meta
          none).error_enum_name
        = to_case_pascal
            (type_name ++ "_" ++ fn.getD "TryFrom" ++ "_error")) ∧
    (TryFromInfo.new_from_macro_attribute_info "Foo"
        (FieldsInfo.mk [] [] [] []) (some "new") none none).error_enum_name
      = "FooNewError" ∧
    (TryFromInfo.new_from_macro_attribute_info "Foo"
        (FieldsInfo.mk [] [] [] []) none none none).error_enum_name
      = "FooTryFromError" := by
  refine ⟨fun fields_names => ⟨?_, ?_, fun i => ⟨?_, ?_⟩⟩,
    fun type_name fi fn meta ov => ⟨rfl, rfl⟩, rfl, rfl⟩ <;>
    simp [TryFromInfo.error_types_and_try_from_types]

/-- C9: deriving the enum `From` conversion on an enum in which every
variant carries the `#[no_from]` skip marker leaves zero conversions to
emit; the emitter unconditionally unwraps the reduction of the empty
per-variant list, so generation panics (modelled as `none`). -/
theorem claim_C9_all_variants_skipped_panics (name : String)
    (variants : List EVariant) (hall : ∀ v ∈ variants, v.no_from = true) :
    tokens_for__from__for_enum name variants = none := by
  unfold tokens_for__from__for_enum
  have hfil : variants.filter (fun v => !v.no_from) = [] := by
    rw [List.filter_eq_nil_iff]
    intro v hv
    simp [hall v hv]
  rw [hfil]
  rfl

/-- C9 witness: a two-variant enum with both variants marked skip. -/
theorem claim_C9_witness :
    tokens_for__from__for_enum "MyValue"
        [⟨"StaticString", [(none, "i32")], true⟩, ⟨"Unit", [], true⟩]
      = none :=
  claim_C9_all_variants_skipped_panics _ _ (by decide)

/-- C8: the enum `From` derive emits one conversion impl per variant not
marked `#[no_from]` (a skipped variant yields none at all); the source
composite is the unit composite for a zero-field variant, the bare field
type for a one-field variant, and the ordered tuple of field types for
two or more fields; the constructed variant assigns fields by name for
named shapes and by position (numeric index, tuple projection) for
positional shapes. -/
theorem claim_C8_enum_variant_generation (name : String)
    (variants : List EVariant) (impls : List VariantImpl)
    (hres : tokens_for__from__for_enum name variants = some impls) :
    impls = (variants.filter (fun v => !v.no_from)).map
        (impl_for_variant name) ∧
    ∀ v ∈ variants, v.no_from = false →
      (impl_for_variant name v).target = name ∧
      (impl_for_variant name v).variant_name = v.ident ∧
      (v.fields = [] →
        (impl_for_variant name v).source = .unit ∧
        (impl_for_variant name v).field_assignments = []) ∧
      (∀ (fn : Option String) (ft : String), v.fields = [(fn, ft)] →
        (impl_for_variant name v).source = .single ft ∧
        (impl_for_variant name v).field_assignments
          = [(fn.getD "0", "value")]) ∧
      (2 ≤ v.fields.length →
        (impl_for_variant name v).source = .tuple (v.fields.map Prod.snd) ∧
        (impl_for_variant name v).field_assignments
          = v.fields.enum.map
              (fun p => ((p.2.1).getD (toString p.1),
                "value." ++ toString p.1))) := by
  constructor
  · unfold tokens_for__from__for_enum at hres
    cases himp : (variants.filter (fun v => !v.no_from)).map
        (impl_for_variant name) with
    | nil => rw [himp] at hres; cases hres
    | cons a l =>
      rw [himp] at hres
      exact (Option.some.inj hres).symm
  · intro v hv hnf
    refine ⟨rfl, rfl, ?_, ?_, ?_⟩
    · intro hf
      simp [impl_for_variant, hf, compositeOfTypes]
    · intro fn ft hf
      constructor
      · simp [impl_for_variant, hf, compositeOfTypes]
      · simp [impl_for_variant, hf, List.enum]
        rfl
    · intro h2
      match hf : v.fields with
      | [] => rw [hf] at h2; simp at h2
      | [x] => rw [hf] at h2; simp at h2
      | x :: y :: fs =>
        constructor
        · simp only [impl_for_variant]
          rw [hf]
          rfl
        · simp only [impl_for_variant]
          rw [hf]
          split
          · rename List.length _ = 0 => heq
            simp at heq
          · rename List.length _ = 1 => heq
            simp at heq
          · exact value_assignments (x :: y :: fs)

/-- C8 witness: the theorem applied to the spec's example union
`V0 {}`, `V1(T)`, `V2(T,U)` with an additional skipped variant. -/
theorem claim_C8_witness :
    (impl_for_variant "MyValue" ⟨"V0", [], false⟩).source = .unit ∧
    (impl_for_variant "MyValue" ⟨"V1", [(none, "T")], false⟩).source
      = .single "T" ∧
    (impl_for_variant "MyValue"
        ⟨"V2", [(none, "T"), (none, "U")], false⟩).source
      = .tuple ["T", "U"] := by
  have h := (claim_C8_enum_variant_generation "MyValue"
    [⟨"V0", [], false⟩, ⟨"V1", [(none, "T")], false⟩,
      ⟨"V2", [(none, "T"), (none, "U")], false⟩,
      ⟨"Skip", [(none, "W")], true⟩]
    [⟨"MyValue", .unit, "V0", []⟩,
      ⟨"MyValue", .single "T", "V1", [("0", "value")]⟩,
      ⟨"MyValue", .tuple ["T", "U"], "V2",
        [("0", "value.0"), ("1", "value.1")]⟩]
    rfl).2
  exact ⟨((h _ (by simp) rfl).2.2.1 rfl).1,
    ((h _ (by simp) rfl).2.2.2.1 none "T" rfl).1,
    ((h _ (by simp) rfl).2.2.2.2 (by simp)).1⟩

theorem lookup_zip_get {β : Type} (keys : List String) (vals : List β)
    (hnd : keys.Nodup) (i : Nat) (hi : i < keys.length)
    (hi2 : i < vals.length) :
    (keys.zip vals).lookup (keys.get ⟨i, hi⟩) = some (vals.get ⟨i, hi2⟩) := by
  induction keys generalizing vals i with
  | nil => cases hi
  | cons k ks ih =>
    cases vals with
    | nil => cases hi2
    | cons v vs =>
      cases i with
      | zero => simp [List.lookup]
      | succ j =>
        have hj : j < ks.length := by simpa using hi
        have hj2 : j < vs.length := by simpa using hi2
        have hbeq : (ks.get ⟨j, hj⟩ == k) = false := by
          rw [beq_eq_false_iff_ne]
          intro he
          exact (List.nodup_cons.mp hnd).1 (he ▸ List.get_mem ks j hj)
        show List.lookup (ks.get ⟨j, hj⟩) ((k, v) :: ks.zip vs) = _
        rw [List.lookup_cons, hbeq]
        exact ih vs (List.nodup_cons.mp hnd).2 j hj hj2

theorem lookup_append_left {β : Type} (l₁ l₂ : List (String × β))
    (a : String) (b : β) (h : l₁.lookup a = some b) :
    (l₁ ++ l₂).lookup a = some b := by
  induction l₁ with
  | nil => cases h
  | cons p l ih =>
    obtain ⟨k, v⟩ := p
    rw [List.lookup_cons] at h
    rw [List.cons_append, List.lookup_cons]
    cases hak : a == k with
    | true => rw [hak] at h; exact h
    | false => rw [hak] at h; exact ih h

theorem lookup_append_right_of_not_mem {β : Type} (l₁ l₂ : List (String × β))
    (a : String) (h : a ∉ l₁.map Prod.fst) :
    (l₁ ++ l₂).lookup a = l₂.lookup a := by
  induction l₁ with
  | nil => rfl
  | cons p l ih =>
    obtain ⟨k, v⟩ := p
    simp only [List.map_cons, List.mem_cons, not_or] at h
    have hak : (a == k) = false := beq_eq_false_iff_ne.mpr h.1
    rw [List.cons_append, List.lookup_cons, hak]
    exact ih h.2

/-- C4: for every record and both Direct forms — the `From` trait impl
and the named constructor function, which emit the same construction —
applying the generated constructor to values (v1,...,vn) for the n
active fields in order produces a record in which each active field
holds its v_i and each passive field holds the value of its resolved
initializer expression. -/
theorem claim_C4_direct_roundtrip {Val : Type} (fields_names : List String)
    (values : List Val) (no_from_fields no_from_inits : List String)
    (evalInit : String → Val)
    (hlen : fields_names.length = values.length)
    (hnd : (fields_names ++ no_from_fields).Nodup) :
    (∀ (i : Nat) (hi : i < fields_names.length) (hi2 : i < values.length),
      (from_struct_body fields_names values no_from_fields no_from_inits
          evalInit).lookup (fields_names.get ⟨i, hi⟩)
        = some (values.get ⟨i, hi2⟩)) ∧
    (∀ (j : Nat) (hj : j < no_from_fields.length)
        (hj2 : j < no_from_inits.length),
      (from_struct_body fields_names values no_from_fields no_from_inits
          evalInit).lookup (no_from_fields.get ⟨j, hj⟩)
        = some (evalInit (no_from_inits.get ⟨j, hj2⟩))) := by
  obtain ⟨hnd1, hnd2, hdisj⟩ := List.nodup_append.mp hnd
  constructor
  · intro i hi hi2
    exact lookup_append_left _ _ _ _ (lookup_zip_get fields_names values hnd1 i hi hi2)
  · intro j hj hj2
    have hkey : no_from_fields.get ⟨j, hj⟩ ∉
        (fields_names.zip values).map Prod.fst := by
      rw [List.map_fst_zip fields_names values (le_of_eq hlen)]
      intro hmem
      exact hdisj hmem (List.get_mem no_from_fields j hj)
    rw [from_struct_body, lookup_append_right_of_not_mem _ _ _ hkey]
    have hj3 : j < (no_from_inits.map evalInit).length := by simpa using hj2
    rw [lookup_zip_get no_from_fields (no_from_inits.map evalInit) hnd2 j hj hj3]
    congr 1
    simp [List.get_eq_getElem, List.getElem_map]

/-- C4 witness: the theorem applied to the crate's doc example
`CharacterInfo { name, age, times_appeared, years_studied }` with actives
(name, age) and values (10, 23) over a toy value domain. -/
theorem claim_C4_witness :
    (from_struct_body ["name", "age"] [10, 23]
        ["times_appeared", "years_studied"] [default_initializer, "4"]
        (fun s => s.length)).lookup "name" = some 10 ∧
    (from_struct_body ["name", "age"] [10, 23]
        ["times_appeared", "years_studied"] [default_initializer, "4"]
        (fun s => s.length)).lookup "age" = some 23 ∧
    (from_struct_body ["name", "age"] [10, 23]
        ["times_appeared", "years_studied"] [default_initializer, "4"]
        (fun s => s.length)).lookup "years_studied" = some 1 := by
  have h := claim_C4_direct_roundtrip ["name", "age"] [10, 23]
    ["times_appeared", "years_studied"] [default_initializer, "4"]
    (fun s => s.length) rfl (by decide)
  exact ⟨h.1 0 (by decide) (by decide), h.1 1 (by decide) (by decide),
    h.2 1 (by decide) (by decide)⟩

/-- The conversion chain succeeds with results `ws` exactly when each
field's conversion, applied to its destructured value, returns `ok` of
the corresponding entry of `ws`. -/
theorem try_from_chain_ok_iff {Val Err : Type} (convs : List (Val → Except Err Val)) :
    ∀ (evs : List String) (values : List Val) (ws : List Val),
      evs.length = convs.length → convs.length = values.length →
      (try_from_chain evs convs values = .ok ws ↔
        (convs.zip values).map (fun p => p.1 p.2) = ws.map Except.ok) := by
  induction convs with
  | nil =>
    intro evs values ws h1 h2
    cases evs with
    | cons e es => cases h1
    | nil =>
      cases values with
      | cons v vs => cases h2
      | nil =>
        simp only [try_from_chain, List.zip_nil_left, List.map_nil]
        constructor
        · intro h
          obtain rfl : ([] : List Val) = ws := Except.ok.inj h
          rfl
        · intro h
          obtain rfl : ws = [] := by
            cases ws with
            | nil => rfl
            | cons w ws2 => cases h
          rfl
  | cons c cs ih =>
    intro evs values ws h1 h2
    cases evs with
    | nil => cases h1
    | cons ev evs2 =>
      cases values with
      | nil => cases h2
      | cons v vs =>
        have h1a : evs2.length = cs.length := by simpa using h1
        have h2a : cs.length = vs.length := by simpa using h2
        simp only [try_from_chain, List.zip_cons_cons, List.map_cons]
        cases hcv : c v with
        | error err =>
          constructor
          · intro h; cases h
          · intro h
            cases ws with
            | nil => cases h
            | cons w ws2 =>
              rw [List.map_cons] at h
              cases List.cons.injEq .. ▸ h with
              | intro hh ht => cases hh
        | ok w0 =>
          cases hrec : try_from_chain evs2 cs vs with
          | error r =>
            constructor
            · intro h; cases h
            · intro h
              cases ws with
              | nil => cases h
              | cons w ws2 =>
                rw [List.map_cons] at h
                have ht := (List.cons.injEq .. ▸ h).2
                have := (ih evs2 vs ws2 h1a h2a).mpr ht
                rw [hrec] at this
                cases this
          | ok ws0 =>
            constructor
            · intro h
              obtain rfl : w0 :: ws0 = ws := Except.ok.inj h
              rw [List.map_cons]
              exact congrArg₂ (· :: ·) rfl ((ih evs2 vs ws0 h1a h2a).mp hrec)
            · intro h
              cases ws with
              | nil => cases h
              | cons w ws2 =>
                rw [List.map_cons] at h
                have hh := (List.cons.injEq .. ▸ h).1
                have ht := (List.cons.injEq .. ▸ h).2
                obtain rfl : w0 = w := Except.ok.inj hh
                have := (ih evs2 vs ws2 h1a h2a).mpr ht
                rw [hrec] at this
                obtain rfl : ws0 = ws2 := Except.ok.inj this
                rfl

/-- If the per-field conversion results are all-ok up to position i and
fail with `e` at position i, the chain short-circuits to the error
variant at position i of the variant list, carrying `e`. -/
theorem try_from_chain_error_at {Val Err : Type} :
    ∀ (rs₁ : List (Except Err Val)) (evs : List String)
      (convs : List (Val → Except Err Val)) (values : List Val)
      (e : Err) (rs₂ : List (Except Err Val)),
      (convs.zip values).map (fun p => p.1 p.2) = rs₁ ++ .error e :: rs₂ →
      (∀ r ∈ rs₁, ∃ w, r = .ok w) →
      rs₁.length + 1 ≤ evs.length →
      try_from_chain evs convs values
        = .error (evs.getD rs₁.length "", e) := by
  intro rs₁
  induction rs₁ with
  | nil =>
    intro evs convs values e rs₂ hres hok hlen
    cases convs with
    | nil => cases hres
    | cons c cs =>
      cases values with
      | nil => cases hres
      | cons v vs =>
        simp only [List.zip_cons_cons, List.map_cons, List.nil_append] at hres
        have hhead := (List.cons.injEq .. ▸ hres).1
        cases evs with
        | nil => cases hlen
        | cons ev evs2 =>
          simp only [try_from_chain, hhead]
          rfl
  | cons r rs ih =>
    intro evs convs values e rs₂ hres hok hlen
    cases convs with
    | nil => cases hres
    | cons c cs =>
      cases values with
      | nil => cases hres
      | cons v vs =>
        simp only [List.zip_cons_cons, List.map_cons, List.cons_append] at hres
        have hhead := (List.cons.injEq .. ▸ hres).1
        have htail := (List.cons.injEq .. ▸ hres).2
        obtain ⟨w, hw⟩ := hok r (List.mem_cons_self r rs)
        rw [hw] at hhead
        cases evs with
        | nil => cases hlen
        | cons ev evs2 =>
          simp only [try_from_chain, hhead]
          rw [ih evs2 cs vs e rs₂ htail
            (fun r2 hr2 => hok r2 (List.mem_cons_of_mem r hr2))
            (by simpa using hlen)]
          rfl

/-- C3: in every generated Fallible body (trait form and named-function
form emit the same conversion chain), the active fields' conversions run
one by one in parameter order; on the first failure the result is `Err`
of the error variant paired with that field, carrying that field's
underlying error, and conversions of all later fields are never
attempted (the result is unchanged under arbitrary replacement of the
conversions past the failing position); `Ok` with the constructed record
is returned if and only if every conversion succeeds. -/
theorem claim_C3_fallible_short_circuit {Val Err : Type}
    (fields_names error_types : List String)
    (convs : List (Val → Except Err Val)) (values : List Val)
    (no_from_fields no_from_inits : List String) (evalInit : String → Val)
    (hl1 : error_types.length = convs.length)
    (hl2 : convs.length = values.length) :
    (∀ (rs₁ rs₂ : List (Except Err Val)) (e : Err),
      (convs.zip values).map (fun p => p.1 p.2) = rs₁ ++ .error e :: rs₂ →
      (∀ r ∈ rs₁, ∃ w, r = .ok w) →
      (try_from_struct_body fields_names error_types convs values
          no_from_fields no_from_inits evalInit
        = .error (error_types.getD rs₁.length "", e)) ∧
      (∀ (error_types2 fields_names2 no_from_fields2 no_from_inits2 : List String)
          (convs2 : List (Val → Except Err Val)) (values2 : List Val)
          (evalInit2 : String → Val),
        error_types2.take (rs₁.length + 1)
            = error_types.take (rs₁.length + 1) →
        ((convs2.zip values2).map (fun p => p.1 p.2)).take (rs₁.length + 1)
            = ((convs.zip values).map (fun p => p.1 p.2)).take
                (rs₁.length + 1) →
        try_from_struct_body fields_names2 error_types2 convs2 values2
            no_from_fields2 no_from_inits2 evalInit2
          = .error (error_types.getD rs₁.length "", e))) ∧
    (∀ (ws : List Val),
      try_from_chain error_types convs values = .ok ws ↔
        (convs.zip values).map (fun p => p.1 p.2) = ws.map Except.ok) ∧
    (∀ (ws : List Val), try_from_chain error_types convs values = .ok ws →
      try_from_struct_body fields_names error_types convs values
          no_from_fields no_from_inits evalInit
        = .ok (fields_names.zip ws ++
            no_from_fields.zip (no_from_inits.map evalInit))) := by
  refine ⟨?_, ?_, ?_⟩
  · intro rs₁ rs₂ e hres hok
    have hlen_rs : rs₁.length + rs₂.length + 1 = convs.length := by
      have h0 : ((convs.zip values).map (fun p => p.1 p.2)).length
          = convs.length := by simp [hl2]
      rw [hres] at h0
      simp at h0
      omega
    have hrs_len : rs₁.length + 1 ≤ error_types.length := by omega
    have hchain := try_from_chain_error_at rs₁ error_types convs values e
      rs₂ hres hok hrs_len
    constructor
    · unfold try_from_struct_body
      rw [hchain]
    · intro ets2 f2 nf2 ni2 convs2 values2 ev2 htake_e htake_r
      have htake : ((convs.zip values).map (fun p => p.1 p.2)).take
          (rs₁.length + 1) = rs₁ ++ [.error e] := by
        rw [hres]
        have h1 := @List.take_append _ rs₁ (Except.error e :: rs₂) 1
        simpa using h1
      have hr2 : (convs2.zip values2).map (fun p => p.1 p.2)
          = rs₁ ++ .error e ::
              (((convs2.zip values2).map (fun p => p.1 p.2)).drop
                (rs₁.length + 1)) := by
        conv_lhs => rw [← List.take_append_drop (rs₁.length + 1)
          ((convs2.zip values2).map (fun p => p.1 p.2))]
        rw [htake_r, htake]
        simp
      have hlen2 : rs₁.length + 1 ≤ ets2.length := by
        have h1 : (ets2.take (rs₁.length + 1)).length
            = (error_types.take (rs₁.length + 1)).length := by rw [htake_e]
        rw [List.length_take, List.length_take] at h1
        omega
      have hgetD : ets2.getD rs₁.length "" = error_types.getD rs₁.length "" := by
        have h1 : ets2[rs₁.length]? = error_types[rs₁.length]? := by
          have h3 := congrArg (fun l => l[rs₁.length]?) htake_e
          simpa [List.getElem?_take, Nat.lt_succ_self] using h3
        rw [List.getD_eq_getElem?_getD, List.getD_eq_getElem?_getD, h1]
      have h2 := try_from_chain_error_at rs₁ ets2 convs2 values2 e _ hr2
        hok hlen2
      unfold try_from_struct_body
      rw [h2, hgetD]
  · intro ws
    exact try_from_chain_ok_iff convs error_types values ws hl1 hl2
  · intro ws hws
    unfold try_from_struct_body
    rw [hws]

/-- C3 witness: the spec's concrete scenario — actives (age, name) with
inputs (2003, 7) where the age conversion overflows: the result is the
error variant tagged for `age`, carrying the underlying overflow error,
and the name conversion's result never matters. -/
theorem claim_C3_witness :
    try_from_struct_body ["age", "name"] ["AgeError", "NameError"]
        [fun v => if 255 < v then .error "overflow" else .ok v,
          fun v => .ok v]
        [2003, 7] ["id"] ["Jorge"] (fun s => s.length)
      = .error ("AgeError", "overflow") := by
  have h := (claim_C3_fallible_short_circuit ["age", "name"]
      ["AgeError", "NameError"]
      [fun v => if 255 < v then .error "overflow" else .ok v,
        fun v => .ok v]
      [2003, 7] ["id"] ["Jorge"] (fun s => s.length) rfl rfl).1
      [] [.ok 7] "overflow" rfl
      (fun r hr => absurd hr (List.not_mem_nil r))
  exact h.1

end DeriveConstructors
